import Mathlib

/-!
Verification of the Pandora2D configuration validator
(`pandora2d/check_json.py`) against its specification.

The configuration data model follows the spec, section 3: a configuration
is a mapping from string keys to values, where a value is a nested mapping,
a string, an integer, a float (including the NaN and Infinity sentinels),
or a boolean.  Floats carry no arithmetic here: the validator only ever
asks "is this a float?", "is it NaN?", "is it infinite?", so a float is
represented by an exact tag (NaN, Infinity, or a finite payload).
Mappings are association lists with insertion order; well-formed
configurations have unique keys per mapping (spec, section 3).
-/

inductive FloatKind where
  | fnan : FloatKind
  | finf : FloatKind
  | ffin : Int → FloatKind
deriving DecidableEq, Repr

mutual
inductive Value where
  | vint : Int → Value
  | vfloat : FloatKind → Value
  | vstr : String → Value
  | vbool : Bool → Value
  | vdict : Entries → Value
deriving DecidableEq, Repr

inductive Entries where
  | nil : Entries
  | cons : String → Value → Entries → Entries
deriving DecidableEq, Repr
end

def Entries.lookup (k : String) : Entries → Option Value
  | .nil => none
  | .cons k' v rest => if k = k' then some v else Entries.lookup k rest

def Entries.append : Entries → Entries → Entries
  | .nil, e => e
  | .cons k v rest, e => .cons k v (Entries.append rest e)

def Entries.hasKey (e : Entries) (k : String) : Bool :=
  (Entries.lookup k e).isSome

def Entries.ofList : List (String × Value) → Entries
  | [] => .nil
  | (k, v) :: rest => .cons k v (Entries.ofList rest)

/-- The runtime type of a value, as Python's `isinstance` distinguishes the
types used by the validator (spec, section 4.2: an exact-type constraint
passes iff the runtime type of the value matches). -/
inductive PyType where
  | tInt : PyType
  | tFloat : PyType
  | tStr : PyType
  | tBool : PyType
  | tDict : PyType
deriving DecidableEq, Repr

def typeOf : Value → PyType
  | .vint _ => .tInt
  | .vfloat _ => .tFloat
  | .vstr _ => .tStr
  | .vbool _ => .tBool
  | .vdict _ => .tDict

/-- Python's `isinstance(v, float)`: true for every float, the NaN and
Infinity sentinels included. -/
def isFloat : Value → Bool
  | .vfloat _ => true
  | _ => false

/-- Errors that propagate to the caller as raised exceptions (spec,
section 7): schema violations, state-machine violations, and the plain
Python lookup errors (`KeyError`, `TypeError`) the source can raise. -/
inductive Err where
  | schemaViolation : String → Err
  | stateMachineViolation : String → Err
  | keyError : String → Err
  | typeError : Err
deriving DecidableEq, Repr

/-- Outcome of one `check_conf` invocation: a returned configuration, an
exception propagating to the immediate caller, or process termination via
`sys.exit` with a status code after logging a message. -/
inductive RunOutcome (α : Type) where
  | ok : α → RunOutcome α
  | raised : Err → RunOutcome α
  | exited : Nat → String → RunOutcome α
deriving DecidableEq, Repr

/-!
The configuration merger.

Modelled from the spec: `update_conf` (ConfigMerger, spec section 4.1)
belongs to the `pandora.check_json` dependency and is not under `src/`.
Per the spec it recursively overlays `user` onto `defaults`: for each key
present in both where both values are mappings, merge recursively;
otherwise the user value wins if present, else the default value is kept.
`only_new` collects the user entries whose key the defaults lack.
-/

def only_new : Entries → Entries → Entries
  | _, .nil => .nil
  | d, .cons k uv rest =>
    match Entries.lookup k d with
    | none => Entries.cons k uv (only_new d rest)
    | some _ => only_new d rest

mutual
def update_value : Value → Value → Value
  | Value.vdict dc, Value.vdict uc =>
      Value.vdict (Entries.append (update_keys dc uc) (only_new dc uc))
  | _, uv => uv

def update_keys : Entries → Entries → Entries
  | .nil, _ => .nil
  | .cons k dv rest, u =>
    match Entries.lookup k u with
    | none => Entries.cons k dv (update_keys rest u)
    | some uv => Entries.cons k (update_value dv uv) (update_keys rest u)
end

def update_conf (d u : Entries) : Entries :=
  Entries.append (update_keys d u) (only_new d u)

/-- Modelled from the spec: `concat_conf` of the `pandora.check_json`
dependency.  The validated sections are concatenated into one final
configuration (spec, section 4.5, step 5). -/
def concat_conf (cfgs : List Entries) : Entries :=
  cfgs.foldl update_conf Entries.nil

/-!
Well-formedness of configurations: key uniqueness within every mapping,
recursively (spec, section 3: "key uniqueness within a mapping is
required").
-/

mutual
def wfValue : Value → Bool
  | .vdict e => wfEntries e
  | _ => true

def wfEntries : Entries → Bool
  | .nil => true
  | .cons k v rest =>
      (Entries.lookup k rest).isNone && wfValue v && wfEntries rest
end

/-!
The schema system.

Modelled from the spec: the `json_checker` library (Checker, And, Or) is an
external dependency, specified in section 4.2: a schema maps each key to a
constraint (an exact type, a conjunction, a disjunction, or an arbitrary
predicate), or to a nested schema for a sub-mapping; every schema key must
be present and conforming; failure raises a SchemaViolation naming the
offending key.
-/

inductive Constraint where
  | ctype : PyType → Constraint
  | cpred : (Value → Bool) → Constraint
  | cAnd : Constraint → Constraint → Constraint
  | cOr : Constraint → Constraint → Constraint

def evalC : Constraint → Value → Bool
  | .ctype t, v => typeOf v == t
  | .cpred p, v => p v
  | .cAnd a b, v => evalC a v && evalC b v
  | .cOr a b, v => evalC a v || evalC b v

mutual
inductive SchemaVal where
  | leaf : Constraint → SchemaVal
  | nested : SchemaEntries → SchemaVal

inductive SchemaEntries where
  | nil : SchemaEntries
  | cons : String → SchemaVal → SchemaEntries → SchemaEntries
end

def SchemaEntries.ofList : List (String × SchemaVal) → SchemaEntries
  | [] => .nil
  | (k, sv) :: rest => .cons k sv (SchemaEntries.ofList rest)

mutual
def validateVal : SchemaVal → String → Value → Except Err Unit
  | .leaf c, k, v =>
      if evalC c v then Except.ok () else Except.error (Err.schemaViolation k)
  | .nested s, k, v =>
      match v with
      | .vdict sub => validateEntries s sub
      | _ => Except.error (Err.schemaViolation k)

def validateEntries : SchemaEntries → Entries → Except Err Unit
  | .nil, _ => Except.ok ()
  | .cons k sv rest, cfg =>
      match Entries.lookup k cfg with
      | none => Except.error (Err.schemaViolation k)
      | some v =>
        match validateVal sv k v with
        | Except.ok _ => validateEntries rest cfg
        | Except.error e => Except.error e
end

/-- `np.isnan`: true exactly on the float NaN sentinel; false on every
integer; a non-numeric argument makes the library predicate fail. -/
def isnanB : Value → Bool
  | .vfloat .fnan => true
  | _ => false

/-- `np.isinf`: true exactly on the float Infinity sentinel. -/
def isinfB : Value → Bool
  | .vfloat .finf => true
  | _ => false

/-- Modelled from the spec: `rasterio_can_open_mandatory` of the
`pandora.check_json` dependency asks the external raster collaborator
whether the named source opens (spec, sections 4.2 and 5); the
collaborator's verdict is the `canOpen` parameter. -/
def rasterio_can_open_mandatory (canOpen : String → Bool) : Value → Bool
  | .vstr s => canOpen s
  | _ => false

def img_constraint (canOpen : String → Bool) : Constraint :=
  Constraint.cAnd (Constraint.ctype PyType.tStr)
    (Constraint.cpred (rasterio_can_open_mandatory canOpen))

def nodata_constraint : Constraint :=
  Constraint.cOr (Constraint.ctype PyType.tInt)
    (Constraint.cOr (Constraint.cpred isnanB) (Constraint.cpred isinfB))

/-- Translation of `input_configuration_schema` (check_json.py, lines
139-148): the standard input schema requiring exact integer disparity
bounds. -/
def input_configuration_schema (canOpen : String → Bool) : SchemaEntries :=
  SchemaEntries.ofList
    [("img_left", SchemaVal.leaf (img_constraint canOpen)),
     ("img_right", SchemaVal.leaf (img_constraint canOpen)),
     ("nodata_left", SchemaVal.leaf nodata_constraint),
     ("nodata_right", SchemaVal.leaf nodata_constraint),
     ("disp_min_col", SchemaVal.leaf (Constraint.ctype PyType.tInt)),
     ("disp_max_col", SchemaVal.leaf (Constraint.ctype PyType.tInt)),
     ("disp_min_row", SchemaVal.leaf (Constraint.ctype PyType.tInt)),
     ("disp_max_row", SchemaVal.leaf (Constraint.ctype PyType.tInt))]

/-- Translation of `estim_input_configuration_schema` (check_json.py,
lines 150-159): the estimation-variant schema, under which every disparity
bound must be the NaN sentinel. -/
def estim_input_configuration_schema (canOpen : String → Bool) : SchemaEntries :=
  SchemaEntries.ofList
    [("img_left", SchemaVal.leaf (img_constraint canOpen)),
     ("img_right", SchemaVal.leaf (img_constraint canOpen)),
     ("nodata_left", SchemaVal.leaf nodata_constraint),
     ("nodata_right", SchemaVal.leaf nodata_constraint),
     ("disp_min_col", SchemaVal.leaf (Constraint.cpred isnanB)),
     ("disp_max_col", SchemaVal.leaf (Constraint.cpred isnanB)),
     ("disp_min_row", SchemaVal.leaf (Constraint.cpred isnanB)),
     ("disp_max_row", SchemaVal.leaf (Constraint.cpred isnanB))]

/-- Translation of `default_short_configuration_input` (check_json.py,
lines 161-170). -/
def default_short_configuration_input : Entries :=
  Entries.ofList
    [("input", Value.vdict (Entries.ofList
      [("nodata_left", Value.vint (-9999)),
       ("nodata_right", Value.vint (-9999)),
       ("disp_min_col", Value.vfloat FloatKind.fnan),
       ("disp_max_col", Value.vfloat FloatKind.fnan),
       ("disp_min_row", Value.vfloat FloatKind.fnan),
       ("disp_max_row", Value.vfloat FloatKind.fnan)]))]

/-!
The external collaborators of `check_conf`, bundled as an environment
(spec, sections 1 and 6): the Pandora2D state machine (an argument of
`check_conf` in the source), the raster-opening probe, and the pandora
image / disparity checkers.  `machineCheck` is modelled from the spec,
section 4.3: it receives the raw pipeline section and either raises or
returns the machine's normalized `pipeline_cfg` mapping (a configuration
whose `pipeline` key holds the normalized steps); the core treats it as
opaque.
-/

structure Env where
  machineCheck : Value → Except Err Entries
  canOpen : String → Bool
  checkImages : Value → Value → Except Err Unit
  checkDisparities : Value → Value → Except Err Unit

/-- Python subscription `v[k]`: a `KeyError` when the key is absent, a
`TypeError` when the value is not a mapping. -/
def getItem (v : Value) (k : String) : Except Err Value :=
  match v with
  | .vdict e =>
    match Entries.lookup k e with
    | some w => Except.ok w
    | none => Except.error (Err.keyError k)
  | _ => Except.error Err.typeError

def getPathV : Value → List String → Except Err Value
  | v, [] => Except.ok v
  | v, k :: ks =>
    match getItem v k with
    | Except.ok w => getPathV w ks
    | Except.error e => Except.error e

/-- Chained subscription `cfg[k1][k2]...` starting from a configuration. -/
def getPath (c : Entries) (ks : List String) : Except Err Value :=
  getPathV (Value.vdict c) ks

def disparity_keys : List String :=
  ["disp_min_col", "disp_max_col", "disp_min_row", "disp_max_row"]

def has_estim (p : Entries) : Bool :=
  Entries.hasKey p "estimation"

def all_disparities (inp : Entries) : Bool :=
  disparity_keys.all fun k => Entries.hasKey inp k

/-- Python `'estimation' in v` (check_json.py, line 115): key containment
for a mapping, substring containment for a string, a `TypeError`
otherwise. -/
def contains_estim : Value → Except Err Bool
  | .vdict e => Except.ok (has_estim e)
  | .vstr s => Except.ok (2 ≤ (s.splitOn "estimation").length)
  | _ => Except.error Err.typeError

/-- Python `{'disp_min_col', 'disp_max_col', 'disp_min_row',
'disp_max_row'}.issubset(v)` (check_json.py, line 116): true for a mapping
iff all four keys are present; always false for a string, whose elements
are single characters; a `TypeError` otherwise. -/
def disparities_subset : Value → Except Err Bool
  | .vdict e => Except.ok (all_disparities e)
  | .vstr _ => Except.ok false
  | _ => Except.error Err.typeError

def exclusivity_msg : String :=
  "Disparities can\x27t be set in config file with estimation step (and vice versa)"

def nodata_msg : String :=
  "nodata_right must be int type with sad or ssd matching_cost_method (ex: 9999)"

/-- Modelled from the spec: `get_config_pipeline` of the `pandora.check_json`
dependency extracts the pipeline subsection (spec, section 4.5, step 1). -/
def get_config_pipeline (user_cfg : Entries) : Entries :=
  match Entries.lookup "pipeline" user_cfg with
  | some v => Entries.cons "pipeline" v Entries.nil
  | none => Entries.nil

/-- Modelled from the spec: `get_config_input` of the `pandora.check_json`
dependency extracts the input subsection (spec, section 4.5, step 2). -/
def get_config_input (user_cfg : Entries) : Entries :=
  match Entries.lookup "input" user_cfg with
  | some v => Entries.cons "input" v Entries.nil
  | none => Entries.nil

/-- Translation of `check_input_section` (check_json.py, lines 42-72):
complete the user configuration with the input defaults, validate it
against the schema variant selected by `flag_estim`, then hand the images
and the disparity pairs to the external checkers. -/
def check_input_section (env : Env) (user_cfg : Entries) (flag_estim : Bool) :
    Except Err Entries :=
  let cfg := update_conf default_short_configuration_input user_cfg
  let configuration_schema :=
    SchemaEntries.cons "input"
      (SchemaVal.nested
        (if flag_estim then estim_input_configuration_schema env.canOpen
         else input_configuration_schema env.canOpen))
      SchemaEntries.nil
  match validateEntries configuration_schema cfg with
  | Except.error e => Except.error e
  | Except.ok _ =>
    match getPath cfg ["input", "img_left"], getPath cfg ["input", "img_right"] with
    | Except.ok imgL, Except.ok imgR =>
      (match env.checkImages imgL imgR with
       | Except.error e => Except.error e
       | Except.ok _ =>
         match getPath cfg ["input", "disp_min_col"],
               getPath cfg ["input", "disp_max_col"] with
         | Except.ok dminc, Except.ok dmaxc =>
           (match env.checkDisparities dminc dmaxc with
            | Except.error e => Except.error e
            | Except.ok _ =>
              match getPath cfg ["input", "disp_min_row"],
                    getPath cfg ["input", "disp_max_row"] with
              | Except.ok dminr, Except.ok dmaxr =>
                (match env.checkDisparities dminr dmaxr with
                 | Except.error e => Except.error e
                 | Except.ok _ => Except.ok cfg)
              | Except.error e, _ => Except.error e
              | _, Except.error e => Except.error e)
         | Except.error e, _ => Except.error e
         | _, Except.error e => Except.error e)
    | Except.error e, _ => Except.error e
    | _, Except.error e => Except.error e

/-- Translation of `check_pipeline_section` (check_json.py, lines 75-99):
copy the user pipeline configuration, let the state machine validate and
normalize it, merge the machine's normalized configuration over the copy,
and check that the result carries a `pipeline` mapping. -/
def check_pipeline_section (env : Env) (user_cfg : Entries) :
    Except Err Entries :=
  let cfg := update_conf Entries.nil user_cfg
  match getPath cfg ["pipeline"] with
  | Except.error e => Except.error e
  | Except.ok pv =>
    match env.machineCheck pv with
    | Except.error e => Except.error e
    | Except.ok machine_cfg =>
      let cfg2 := update_conf cfg machine_cfg
      match validateEntries
          (SchemaEntries.cons "pipeline"
            (SchemaVal.leaf (Constraint.ctype PyType.tDict)) SchemaEntries.nil)
          cfg2 with
      | Except.error e => Except.error e
      | Except.ok _ => Except.ok cfg2

/-- Translation of `check_conf` (check_json.py, lines 102-136): the
exclusivity gate between the estimation step and explicit disparities
(lines 114-118, a failure logs and exits with status 1), then the pipeline
section check, then the input section check, then the nodata_right /
matching-cost-method consistency check (lines 128-132, a failure logs and
exits with status 1), and finally the concatenation of the two validated
sections. -/
def check_conf (env : Env) (user_cfg : Entries) : RunOutcome Entries :=
  match Entries.lookup "pipeline" user_cfg with
  | none => RunOutcome.raised (Err.keyError "pipeline")
  | some pv =>
    match contains_estim pv with
    | Except.error e => RunOutcome.raised e
    | Except.ok flag_estim =>
      match Entries.lookup "input" user_cfg with
      | none => RunOutcome.raised (Err.keyError "input")
      | some iv =>
        match disparities_subset iv with
        | Except.error e => RunOutcome.raised e
        | Except.ok all_disp =>
          if Bool.xor flag_estim all_disp = false then
            RunOutcome.exited 1 exclusivity_msg
          else
            match check_pipeline_section env (get_config_pipeline user_cfg) with
            | Except.error e => RunOutcome.raised e
            | Except.ok cfg_pipeline =>
              match check_input_section env (get_config_input user_cfg) flag_estim with
              | Except.error e => RunOutcome.raised e
              | Except.ok cfg_input =>
                match getPath cfg_input ["input", "nodata_right"] with
                | Except.error e => RunOutcome.raised e
                | Except.ok ndr =>
                  if isFloat ndr then
                    match getPath cfg_pipeline
                        ["pipeline", "matching_cost", "matching_cost_method"] with
                    | Except.error e => RunOutcome.raised e
                    | Except.ok m =>
                      if m == Value.vstr "sad" || m == Value.vstr "ssd" then
                        RunOutcome.exited 1 nodata_msg
                      else
                        RunOutcome.ok (concat_conf [cfg_input, cfg_pipeline])
                  else
                    RunOutcome.ok (concat_conf [cfg_input, cfg_pipeline])

def isDict : Value → Bool
  | .vdict _ => true
  | _ => false

def valuesWf : Entries → Bool
  | .nil => true
  | .cons _ v rest => wfValue v && valuesWf rest

/-- `agrees w c`: every entry of `w` is found unchanged by a lookup in
`c` (the shape in which entries of a well-formed configuration see
themselves, and entries kept by `only_new` see the user configuration). -/
def agrees : Entries → Entries → Bool
  | .nil, _ => true
  | .cons k v rest, c => (Entries.lookup k c == some v) && agrees rest c

/-!
A heap-level model of the merger, for its non-mutation contract.

Modelled from the spec: `update_conf` (ConfigMerger, spec sections 4.1 and
5) is code of the `pandora.check_json` dependency, not under `src/`.  The
spec requires that the merge "must not mutate either argument (pure
function, return a new structure)".  To make that statement non-vacuous,
dictionaries live in an explicit store mapping addresses to objects whose
values are either scalars or references to further addresses.  The merge
reads the two argument objects and only ever allocates fresh addresses for
the structures it builds; fuel bounds the recursion through the store.
-/

inductive HVal where
  | hint : Int → HVal
  | hfloat : FloatKind → HVal
  | hstr : String → HVal
  | hbool : Bool → HVal
  | href : Nat → HVal
deriving DecidableEq, Repr

abbrev HObj := List (String × HVal)

abbrev Store := List (Nat × HObj)

def storeMax : Store → Nat
  | [] => 0
  | (a, _) :: rest => max a (storeMax rest)

def freshAddr (s : Store) : Nat := storeMax s + 1

/-- Prepend a merged entry to the object under construction, threading the
store through. -/
def consObj (k : String) (v : HVal) : Option (Store × HObj) → Option (Store × HObj)
  | some (s1, tail) => some (s1, (k, v) :: tail)
  | none => none

mutual
def mergeHeap : Nat → Store → Nat → Nat → Option (Store × Nat)
  | 0, _, _, _ => none
  | fuel + 1, s, d, u =>
    match List.lookup d s, List.lookup u s with
    | some dObj, some uObj =>
      match mergeOver fuel s dObj uObj with
      | some (s1, merged) =>
        let obj := merged ++ uObj.filter fun kv => (List.lookup kv.1 dObj).isNone
        let a := freshAddr s1
        some ((a, obj) :: s1, a)
      | none => none
    | _, _ => none

def mergeOver : Nat → Store → HObj → HObj → Option (Store × HObj)
  | 0, _, _, _ => none
  | _ + 1, s, [], _ => some (s, [])
  | fuel + 1, s, (k, dv) :: rest, uObj =>
    match List.lookup k uObj with
    | none => consObj k dv (mergeOver fuel s rest uObj)
    | some uv =>
      match dv, uv with
      | HVal.href da, HVal.href ua =>
        match mergeHeap fuel s da ua with
        | some (s1, a1) => consObj k (HVal.href a1) (mergeOver fuel s1 rest uObj)
        | none => none
      | _, _ => consObj k uv (mergeOver fuel s rest uObj)
end

/-!
Concrete environments and configurations used by the witnesses: an
environment whose state machine echoes the pipeline section back as its
normalized configuration and whose external checkers all succeed, an
environment whose state machine rejects every pipeline, and small
user configurations exercising the different scenarios.
-/

def envW : Env :=
  { machineCheck := fun v => Except.ok (Entries.cons "pipeline" v Entries.nil),
    canOpen := fun _ => true,
    checkImages := fun _ _ => Except.ok (),
    checkDisparities := fun _ _ => Except.ok () }

def env9 : Env :=
  { machineCheck := fun _ => Except.error (Err.stateMachineViolation "illegal transition"),
    canOpen := fun _ => false,
    checkImages := fun _ _ => Except.error (Err.schemaViolation "img_left"),
    checkDisparities := fun _ _ => Except.error (Err.schemaViolation "disp_min_col") }

def pA : Entries :=
  Entries.ofList
    [("matching_cost", Value.vdict (Entries.ofList
       [("matching_cost_method", Value.vstr "sad")]))]

def inpA : Entries :=
  Entries.ofList
    [("img_left", Value.vstr "left.tif"),
     ("img_right", Value.vstr "right.tif"),
     ("disp_min_col", Value.vint (-2)),
     ("disp_max_col", Value.vint 2),
     ("disp_min_row", Value.vint (-2)),
     ("disp_max_row", Value.vint 2),
     ("nodata_right", Value.vint 9999)]

def cfgA : Entries :=
  Entries.cons "input" (Value.vdict inpA)
    (Entries.cons "pipeline" (Value.vdict pA) Entries.nil)

def cfgA_pipeline : Entries :=
  Entries.cons "pipeline" (Value.vdict pA) Entries.nil

def cfgA_input : Entries :=
  Entries.ofList
    [("input", Value.vdict (Entries.ofList
       [("nodata_left", Value.vint (-9999)),
        ("nodata_right", Value.vint 9999),
        ("disp_min_col", Value.vint (-2)),
        ("disp_max_col", Value.vint 2),
        ("disp_min_row", Value.vint (-2)),
        ("disp_max_row", Value.vint 2),
        ("img_left", Value.vstr "left.tif"),
        ("img_right", Value.vstr "right.tif")]))]

def pE : Entries :=
  Entries.ofList
    [("estimation", Value.vdict (Entries.ofList
       [("estimation_method", Value.vstr "phase_cross_correlation")]))]

def inpE : Entries :=
  Entries.ofList
    [("img_left", Value.vstr "left.tif"),
     ("img_right", Value.vstr "right.tif")]

def cfgE : Entries :=
  Entries.cons "input" (Value.vdict inpE)
    (Entries.cons "pipeline" (Value.vdict pE) Entries.nil)

def cfgE_pipeline : Entries :=
  Entries.cons "pipeline" (Value.vdict pE) Entries.nil

def cfgE_input : Entries :=
  Entries.ofList
    [("input", Value.vdict (Entries.ofList
       [("nodata_left", Value.vint (-9999)),
        ("nodata_right", Value.vint (-9999)),
        ("disp_min_col", Value.vfloat FloatKind.fnan),
        ("disp_max_col", Value.vfloat FloatKind.fnan),
        ("disp_min_row", Value.vfloat FloatKind.fnan),
        ("disp_max_row", Value.vfloat FloatKind.fnan),
        ("img_left", Value.vstr "left.tif"),
        ("img_right", Value.vstr "right.tif")]))]

def inpBoth : Entries :=
  Entries.ofList
    [("img_left", Value.vstr "left.tif"),
     ("img_right", Value.vstr "right.tif"),
     ("disp_min_col", Value.vint (-1)),
     ("disp_max_col", Value.vint 1),
     ("disp_min_row", Value.vint (-1)),
     ("disp_max_row", Value.vint 1)]

def cfgBoth : Entries :=
  Entries.cons "input" (Value.vdict inpBoth)
    (Entries.cons "pipeline" (Value.vdict pE) Entries.nil)

def inpC : Entries :=
  Entries.ofList
    [("img_left", Value.vstr "left.tif"),
     ("img_right", Value.vstr "right.tif"),
     ("disp_min_col", Value.vint (-2)),
     ("disp_max_col", Value.vint 2)]

def cfgC : Entries :=
  Entries.cons "input" (Value.vdict inpC)
    (Entries.cons "pipeline" (Value.vdict pA) Entries.nil)

/-- A schema chain carries key `k` with the leaf constraint `c`. -/
inductive SchemaHas : SchemaEntries → String → Constraint → Prop where
  | head : ∀ k c rest, SchemaHas (SchemaEntries.cons k (SchemaVal.leaf c) rest) k c
  | tail : ∀ k' sv rest k c, SchemaHas rest k c →
      SchemaHas (SchemaEntries.cons k' sv rest) k c

def inpS : Entries :=
  Entries.ofList
    [("img_left", Value.vstr "left.tif"),
     ("img_right", Value.vstr "right.tif"),
     ("disp_min_col", Value.vint (-2)),
     ("disp_max_col", Value.vint 2),
     ("disp_min_row", Value.vint (-2)),
     ("disp_max_row", Value.vint 2),
     ("nodata_right", Value.vfloat FloatKind.fnan)]

def cfgS : Entries :=
  Entries.cons "input" (Value.vdict inpS)
    (Entries.cons "pipeline" (Value.vdict pA) Entries.nil)

def cfgS_input : Entries :=
  Entries.ofList
    [("input", Value.vdict (Entries.ofList
       [("nodata_left", Value.vint (-9999)),
        ("nodata_right", Value.vfloat FloatKind.fnan),
        ("disp_min_col", Value.vint (-2)),
        ("disp_max_col", Value.vint 2),
        ("disp_min_row", Value.vint (-2)),
        ("disp_max_row", Value.vint 2),
        ("img_left", Value.vstr "left.tif"),
        ("img_right", Value.vstr "right.tif")]))]

def inpD : Entries :=
  Entries.ofList
    [("img_left", Value.vstr "left.tif"),
     ("img_right", Value.vstr "right.tif"),
     ("disp_min_col", Value.vint (-2)),
     ("disp_max_col", Value.vint 2),
     ("disp_min_row", Value.vint (-2)),
     ("disp_max_row", Value.vint 2),
     ("nodata_right", Value.vfloat (FloatKind.ffin 9999))]

def cfgD : Entries :=
  Entries.cons "input" (Value.vdict inpD)
    (Entries.cons "pipeline" (Value.vdict pA) Entries.nil)

/-!
Lemmas.  `Entries` sits inside a mutual inductive block, so list-style
lemmas are proved by direct structural recursion.
-/

theorem append_nil : ∀ e : Entries, Entries.append e Entries.nil = e
  | .nil => rfl
  | .cons k v rest => by
    simp only [Entries.append]
    rw [append_nil rest]

theorem lookup_append : ∀ (a b : Entries) (k : String),
    Entries.lookup k (Entries.append a b) =
      (Entries.lookup k a).or (Entries.lookup k b)
  | .nil, b, k => by simp [Entries.append, Entries.lookup]
  | .cons k' v rest, b, k => by
    by_cases h : k = k'
    · simp [Entries.append, Entries.lookup, h]
    · simp [Entries.append, Entries.lookup, h, lookup_append rest b k]

theorem lookup_update_keys : ∀ (d u : Entries) (k : String),
    Entries.lookup k (update_keys d u) =
      (Entries.lookup k d).map
        (fun dv =>
          match Entries.lookup k u with
          | none => dv
          | some uv => update_value dv uv)
  | .nil, u, k => by simp [update_keys, Entries.lookup]
  | .cons k' dv rest, u, k => by
    by_cases h : k = k'
    · subst h
      cases hu : Entries.lookup k u <;>
        simp [update_keys, Entries.lookup, hu]
    · cases hu : Entries.lookup k' u <;>
        simp [update_keys, Entries.lookup, hu, h,
          lookup_update_keys rest u k]

theorem lookup_only_new : ∀ (d u : Entries) (k : String),
    Entries.lookup k (only_new d u) =
      if (Entries.lookup k d).isSome then none else Entries.lookup k u
  | d, .nil, k => by simp [only_new, Entries.lookup]
  | d, .cons k' uv rest, k => by
    by_cases h : k = k'
    · subst h
      cases hd : Entries.lookup k d <;>
        simp [only_new, Entries.lookup, hd, lookup_only_new d rest k]
    · cases hd : Entries.lookup k' d <;>
        simp [only_new, Entries.lookup, h, hd, lookup_only_new d rest k]

/-- Key-by-key characterization of the merge: a key in both sections gets
the user value (merged recursively when both values are mappings), a key
only in the defaults keeps its default, a key only in the user
configuration is appended. -/
theorem lookup_update_conf (d u : Entries) (k : String) :
    Entries.lookup k (update_conf d u) =
      match Entries.lookup k d, Entries.lookup k u with
      | some dv, some uv => some (update_value dv uv)
      | some dv, none => some dv
      | none, o => o := by
  unfold update_conf
  rw [lookup_append, lookup_update_keys, lookup_only_new]
  cases hd : Entries.lookup k d <;> cases hu : Entries.lookup k u <;> simp

theorem sizeOf_elookup : ∀ (u : Entries) (k : String) (v : Value),
    Entries.lookup k u = some v → sizeOf v < sizeOf u
  | .nil, k, v, h => by simp [Entries.lookup] at h
  | .cons k' v' rest, k, v, h => by
    rw [Entries.lookup] at h
    split at h
    · cases h
      simp only [Entries.cons.sizeOf_spec]
      omega
    · have := sizeOf_elookup rest k v h
      simp only [Entries.cons.sizeOf_spec]
      omega

theorem hasKey_cons (k' k : String) (v : Value) (rest : Entries)
    (h : Entries.hasKey rest k' = true) :
    Entries.hasKey (Entries.cons k v rest) k' = true := by
  simp only [Entries.hasKey, Entries.lookup]
  split
  · simp
  · exact h

theorem values_wf_of_wf : ∀ e : Entries, wfEntries e = true → valuesWf e = true
  | .nil, _ => rfl
  | .cons k v rest, h => by
    simp only [wfEntries, Bool.and_eq_true] at h
    simp only [valuesWf, Bool.and_eq_true]
    exact ⟨h.1.2, values_wf_of_wf rest h.2⟩

theorem wf_lookup : ∀ (u : Entries) (k : String) (v : Value),
    wfEntries u = true → Entries.lookup k u = some v → wfValue v = true
  | .nil, k, v, _, hlk => by simp [Entries.lookup] at hlk
  | .cons k' v' rest, k, v, hwf, hlk => by
    simp only [wfEntries, Bool.and_eq_true] at hwf
    rw [Entries.lookup] at hlk
    split at hlk
    · cases hlk
      exact hwf.1.2
    · exact wf_lookup rest k v hwf.2 hlk

theorem agrees_of_sub : ∀ (w c : Entries),
    (∀ k v, Entries.lookup k w = some v → Entries.lookup k c = some v) →
    wfEntries w = true → agrees w c = true
  | .nil, c, _, _ => rfl
  | .cons k v rest, c, hsub, hwf => by
    simp only [wfEntries, Bool.and_eq_true] at hwf
    have hk : Entries.lookup k (Entries.cons k v rest) = some v := by
      simp [Entries.lookup]
    simp only [agrees, Bool.and_eq_true, beq_iff_eq]
    refine ⟨hsub k v hk, agrees_of_sub rest c ?_ hwf.2⟩
    intro k' v' hlk'
    apply hsub k' v'
    rw [Entries.lookup]
    split
    · next heq =>
      exfalso
      subst heq
      rw [hlk'] at hwf
      simp at hwf
    · exact hlk'

theorem agrees_self (c : Entries) (h : wfEntries c = true) : agrees c c = true :=
  agrees_of_sub c c (fun _ _ hh => hh) h

theorem only_new_nil_of_sub : ∀ (u w : Entries),
    (∀ k, Entries.hasKey u k = true → Entries.hasKey w k = true) →
    only_new w u = Entries.nil
  | .nil, w, _ => rfl
  | .cons k uv rest, w, hsub => by
    have hk : Entries.hasKey (Entries.cons k uv rest) k = true := by
      simp [Entries.hasKey, Entries.lookup]
    have hw := hsub k hk
    simp only [Entries.hasKey, Option.isSome_iff_exists] at hw
    obtain ⟨v, hv⟩ := hw
    simp only [only_new, hv]
    exact only_new_nil_of_sub rest w fun k' hk' =>
      hsub k' (hasKey_cons k' k uv rest hk')

theorem update_value_nondict : ∀ (dv uv : Value),
    isDict uv = false → update_value dv uv = uv
  | .vint _, .vint _, _ => rfl
  | .vint _, .vfloat _, _ => rfl
  | .vint _, .vstr _, _ => rfl
  | .vint _, .vbool _, _ => rfl
  | .vfloat _, .vint _, _ => rfl
  | .vfloat _, .vfloat _, _ => rfl
  | .vfloat _, .vstr _, _ => rfl
  | .vfloat _, .vbool _, _ => rfl
  | .vstr _, .vint _, _ => rfl
  | .vstr _, .vfloat _, _ => rfl
  | .vstr _, .vstr _, _ => rfl
  | .vstr _, .vbool _, _ => rfl
  | .vbool _, .vint _, _ => rfl
  | .vbool _, .vfloat _, _ => rfl
  | .vbool _, .vstr _, _ => rfl
  | .vbool _, .vbool _, _ => rfl
  | .vdict _, .vint _, _ => rfl
  | .vdict _, .vfloat _, _ => rfl
  | .vdict _, .vstr _, _ => rfl
  | .vdict _, .vbool _, _ => rfl
  | .vint _, .vdict _, h => by simp [isDict] at h
  | .vfloat _, .vdict _, h => by simp [isDict] at h
  | .vstr _, .vdict _, h => by simp [isDict] at h
  | .vbool _, .vdict _, h => by simp [isDict] at h
  | .vdict _, .vdict _, h => by simp [isDict] at h

theorem update_value_nondict_left : ∀ (dv uv : Value),
    isDict dv = false → update_value dv uv = uv
  | .vint _, _, _ => rfl
  | .vfloat _, _, _ => rfl
  | .vstr _, _, _ => rfl
  | .vbool _, _, _ => rfl
  | .vdict _, _, h => by simp [isDict] at h

mutual
theorem update_value_self : ∀ v : Value, wfValue v = true → update_value v v = v
  | .vint _, _ => rfl
  | .vfloat _, _ => rfl
  | .vstr _, _ => rfl
  | .vbool _, _ => rfl
  | .vdict c, h => by
    have hc : wfEntries c = true := h
    show Value.vdict (Entries.append (update_keys c c) (only_new c c)) = Value.vdict c
    rw [update_keys_agrees c c (agrees_self c hc) (values_wf_of_wf c hc),
      only_new_nil_of_sub c c (fun _ hk => hk), append_nil]

theorem update_keys_agrees : ∀ (w c : Entries),
    agrees w c = true → valuesWf w = true → update_keys w c = w
  | .nil, _, _, _ => rfl
  | .cons k v rest, c, hag, hwf => by
    simp only [agrees, Bool.and_eq_true, beq_iff_eq] at hag
    simp only [valuesWf, Bool.and_eq_true] at hwf
    simp only [update_keys, hag.1]
    rw [update_value_self v hwf.1, update_keys_agrees rest c hag.2 hwf.2]
end

theorem update_keys_append : ∀ (a b u : Entries),
    update_keys (Entries.append a b) u =
      Entries.append (update_keys a u) (update_keys b u)
  | .nil, b, u => rfl
  | .cons k dv rest, b, u => by
    simp only [Entries.append, update_keys]
    cases hu : Entries.lookup k u <;>
      simp [hu, update_keys_append rest b u, Entries.append]

theorem hasKey_update_conf (d u : Entries) (k : String) :
    Entries.hasKey (update_conf d u) k =
      (Entries.hasKey d k || Entries.hasKey u k) := by
  simp only [Entries.hasKey]
  rw [lookup_update_conf]
  cases Entries.lookup k d <;> cases Entries.lookup k u <;> simp

theorem only_new_update_conf_nil (d u : Entries) :
    only_new (update_conf d u) u = Entries.nil :=
  only_new_nil_of_sub u (update_conf d u) fun k hk => by
    rw [hasKey_update_conf]
    simp [hk]

theorem update_keys_stable : ∀ (dd u : Entries),
    (∀ k uv dv, Entries.lookup k u = some uv →
      update_value (update_value dv uv) uv = update_value dv uv) →
    update_keys (update_keys dd u) u = update_keys dd u
  | .nil, u, _ => rfl
  | .cons k dv rest, u, hM => by
    cases hu : Entries.lookup k u with
    | none =>
      simp only [update_keys, hu]
      rw [update_keys_stable rest u hM]
    | some uv =>
      simp only [update_keys, hu]
      rw [hM k uv dv hu, update_keys_stable rest u hM]

theorem wf_only_new : ∀ (d u : Entries),
    wfEntries u = true → wfEntries (only_new d u) = true
  | d, .nil, _ => rfl
  | d, .cons k uv rest, h => by
    simp only [wfEntries, Bool.and_eq_true] at h
    cases hd : Entries.lookup k d with
    | some w =>
      simp only [only_new, hd]
      exact wf_only_new d rest h.2
    | none =>
      simp only [only_new, hd, wfEntries, Bool.and_eq_true]
      refine ⟨⟨?_, h.1.2⟩, wf_only_new d rest h.2⟩
      rw [lookup_only_new, hd]
      simpa using h.1.1

theorem lookup_only_new_sub (d u : Entries) (k : String) (v : Value)
    (h : Entries.lookup k (only_new d u) = some v) :
    Entries.lookup k u = some v := by
  rw [lookup_only_new] at h
  split at h
  · exact absurd h (by simp)
  · exact h

mutual
theorem update_value_idem : ∀ (dv uv : Value), wfValue uv = true →
    update_value (update_value dv uv) uv = update_value dv uv
  | .vdict a, .vdict b, h => by
    have hb : wfEntries b = true := h
    have e1 : update_value (Value.vdict a) (Value.vdict b)
        = Value.vdict (update_conf a b) := rfl
    have e2 : update_value (Value.vdict (update_conf a b)) (Value.vdict b)
        = Value.vdict (update_conf (update_conf a b) b) := rfl
    rw [e1, e2, update_conf_idem a b hb]
  | .vint z, .vdict b, h => by
    have e1 : update_value (Value.vint z) (Value.vdict b) = Value.vdict b := rfl
    rw [e1]
    exact update_value_self _ h
  | .vfloat z, .vdict b, h => by
    have e1 : update_value (Value.vfloat z) (Value.vdict b) = Value.vdict b := rfl
    rw [e1]
    exact update_value_self _ h
  | .vstr z, .vdict b, h => by
    have e1 : update_value (Value.vstr z) (Value.vdict b) = Value.vdict b := rfl
    rw [e1]
    exact update_value_self _ h
  | .vbool z, .vdict b, h => by
    have e1 : update_value (Value.vbool z) (Value.vdict b) = Value.vdict b := rfl
    rw [e1]
    exact update_value_self _ h
  | dv, .vint z, _ => by
    rw [update_value_nondict dv (Value.vint z) rfl]
    exact update_value_nondict _ _ rfl
  | dv, .vfloat z, _ => by
    rw [update_value_nondict dv (Value.vfloat z) rfl]
    exact update_value_nondict _ _ rfl
  | dv, .vstr z, _ => by
    rw [update_value_nondict dv (Value.vstr z) rfl]
    exact update_value_nondict _ _ rfl
  | dv, .vbool z, _ => by
    rw [update_value_nondict dv (Value.vbool z) rfl]
    exact update_value_nondict _ _ rfl
termination_by _ uv _ => (sizeOf uv, 0)

theorem update_conf_idem : ∀ (d u : Entries), wfEntries u = true →
    update_conf (update_conf d u) u = update_conf d u := fun d u hwf => by
  have h2 : only_new (update_conf d u) u = Entries.nil := only_new_update_conf_nil d u
  show Entries.append (update_keys (update_conf d u) u) (only_new (update_conf d u) u)
      = update_conf d u
  rw [h2, append_nil]
  show update_keys (Entries.append (update_keys d u) (only_new d u)) u = update_conf d u
  rw [update_keys_append]
  have hA : update_keys (update_keys d u) u = update_keys d u :=
    update_keys_stable d u fun k uv dv hlk =>
      update_value_idem dv uv (wf_lookup u k uv hwf hlk)
  have hB : update_keys (only_new d u) u = only_new d u :=
    update_keys_agrees (only_new d u) u
      (agrees_of_sub (only_new d u) u
        (fun k v hv => lookup_only_new_sub d u k v hv) (wf_only_new d u hwf))
      (values_wf_of_wf (only_new d u) (wf_only_new d u hwf))
  rw [hA, hB]
  rfl
termination_by _ u _ => (sizeOf u, 1)
decreasing_by
  all_goals
    apply Prod.Lex.left
    first
      | exact sizeOf_elookup u k uv hlk
      | (simp only [Value.vdict.sizeOf_spec]
         omega)
end

/-- Unfolding of `check_conf` for a configuration carrying its two
mandatory sections as mappings. -/
theorem check_conf_unfold (env : Env) (u p inp : Entries)
    (hp : Entries.lookup "pipeline" u = some (Value.vdict p))
    (hi : Entries.lookup "input" u = some (Value.vdict inp)) :
    check_conf env u =
      if Bool.xor (has_estim p) (all_disparities inp) = false then
        RunOutcome.exited 1 exclusivity_msg
      else
        match check_pipeline_section env (get_config_pipeline u) with
        | Except.error e => RunOutcome.raised e
        | Except.ok cfg_pipeline =>
          match check_input_section env (get_config_input u) (has_estim p) with
          | Except.error e => RunOutcome.raised e
          | Except.ok cfg_input =>
            match getPath cfg_input ["input", "nodata_right"] with
            | Except.error e => RunOutcome.raised e
            | Except.ok ndr =>
              if isFloat ndr then
                match getPath cfg_pipeline
                    ["pipeline", "matching_cost", "matching_cost_method"] with
                | Except.error e => RunOutcome.raised e
                | Except.ok m =>
                  if m == Value.vstr "sad" || m == Value.vstr "ssd" then
                    RunOutcome.exited 1 nodata_msg
                  else
                    RunOutcome.ok (concat_conf [cfg_input, cfg_pipeline])
              else
                RunOutcome.ok (concat_conf [cfg_input, cfg_pipeline]) := by
  simp only [check_conf, hp, hi, contains_estim, disparities_subset]

theorem validateEntries_cons_ok (k : String) (sv : SchemaVal)
    (rest : SchemaEntries) (cfg : Entries)
    (h : validateEntries (SchemaEntries.cons k sv rest) cfg = Except.ok ()) :
    ∃ v, Entries.lookup k cfg = some v ∧ validateVal sv k v = Except.ok () ∧
      validateEntries rest cfg = Except.ok () := by
  cases hlk : Entries.lookup k cfg with
  | none =>
    simp only [validateEntries, hlk] at h
    exact Except.noConfusion h
  | some v =>
    simp only [validateEntries, hlk] at h
    cases hv : validateVal sv k v with
    | error e =>
      simp only [hv] at h
      exact Except.noConfusion h
    | ok uu =>
      cases uu
      simp only [hv] at h
      exact ⟨v, rfl, hv, h⟩

theorem validateVal_leaf_ok (c : Constraint) (k : String) (v : Value)
    (h : validateVal (SchemaVal.leaf c) k v = Except.ok ()) :
    evalC c v = true := by
  cases hev : evalC c v with
  | true => rfl
  | false => simp [validateVal, hev] at h

theorem validateVal_nested_ok : ∀ (s : SchemaEntries) (k : String) (v : Value),
    validateVal (SchemaVal.nested s) k v = Except.ok () →
    ∃ sub, v = Value.vdict sub ∧ validateEntries s sub = Except.ok ()
  | _, _, .vdict sub, h => ⟨sub, rfl, h⟩
  | _, _, .vint _, h => by simp [validateVal] at h
  | _, _, .vfloat _, h => by simp [validateVal] at h
  | _, _, .vstr _, h => by simp [validateVal] at h
  | _, _, .vbool _, h => by simp [validateVal] at h

theorem typeOf_tInt : ∀ v : Value, typeOf v = PyType.tInt → ∃ z, v = Value.vint z
  | .vint z, _ => ⟨z, rfl⟩
  | .vfloat _, h => by simp [typeOf] at h
  | .vstr _, h => by simp [typeOf] at h
  | .vbool _, h => by simp [typeOf] at h
  | .vdict _, h => by simp [typeOf] at h

theorem isnanB_eq : ∀ v : Value, isnanB v = true → v = Value.vfloat FloatKind.fnan
  | .vfloat .fnan, _ => rfl
  | .vfloat .finf, h => by simp [isnanB] at h
  | .vfloat (.ffin _), h => by simp [isnanB] at h
  | .vint _, h => by simp [isnanB] at h
  | .vstr _, h => by simp [isnanB] at h
  | .vbool _, h => by simp [isnanB] at h
  | .vdict _, h => by simp [isnanB] at h

/-- Inversion of a successful `check_input_section` run: the returned
configuration is the user configuration completed with the defaults, and
it passed the schema variant selected by `flag_estim`. -/
theorem check_input_section_ok_inv (env : Env) (u : Entries) (flag : Bool)
    (cfg : Entries) (h : check_input_section env u flag = Except.ok cfg) :
    cfg = update_conf default_short_configuration_input u ∧
      validateEntries
        (SchemaEntries.cons "input"
          (SchemaVal.nested
            (if flag then estim_input_configuration_schema env.canOpen
             else input_configuration_schema env.canOpen))
          SchemaEntries.nil) cfg = Except.ok () := by
  simp only [check_input_section] at h
  cases h1 : validateEntries
      (SchemaEntries.cons "input"
        (SchemaVal.nested
          (if flag then estim_input_configuration_schema env.canOpen
           else input_configuration_schema env.canOpen))
        SchemaEntries.nil)
      (update_conf default_short_configuration_input u) with
  | error e =>
    simp only [h1] at h
    exact Except.noConfusion h
  | ok uu =>
    cases uu
    simp only [h1] at h
    cases h2 : getPath (update_conf default_short_configuration_input u)
        ["input", "img_left"] with
    | error e =>
      simp only [h2] at h
      exact Except.noConfusion h
    | ok imgL =>
      simp only [h2] at h
      cases h3 : getPath (update_conf default_short_configuration_input u)
          ["input", "img_right"] with
      | error e =>
      simp only [h3] at h
      exact Except.noConfusion h
      | ok imgR =>
        simp only [h3] at h
        cases h4 : env.checkImages imgL imgR with
        | error e =>
      simp only [h4] at h
      exact Except.noConfusion h
        | ok uu =>
          cases uu
          simp only [h4] at h
          cases h5 : getPath (update_conf default_short_configuration_input u)
              ["input", "disp_min_col"] with
          | error e =>
      simp only [h5] at h
      exact Except.noConfusion h
          | ok dminc =>
            simp only [h5] at h
            cases h6 : getPath (update_conf default_short_configuration_input u)
                ["input", "disp_max_col"] with
            | error e =>
      simp only [h6] at h
      exact Except.noConfusion h
            | ok dmaxc =>
              simp only [h6] at h
              cases h7 : env.checkDisparities dminc dmaxc with
              | error e =>
      simp only [h7] at h
      exact Except.noConfusion h
              | ok uu =>
                cases uu
                simp only [h7] at h
                cases h8 : getPath (update_conf default_short_configuration_input u)
                    ["input", "disp_min_row"] with
                | error e =>
      simp only [h8] at h
      exact Except.noConfusion h
                | ok dminr =>
                  simp only [h8] at h
                  cases h9 : getPath (update_conf default_short_configuration_input u)
                      ["input", "disp_max_row"] with
                  | error e =>
      simp only [h9] at h
      exact Except.noConfusion h
                  | ok dmaxr =>
                    simp only [h9] at h
                    cases h10 : env.checkDisparities dminr dmaxr with
                    | error e =>
      simp only [h10] at h
      exact Except.noConfusion h
                    | ok uu =>
                      cases uu
                      simp only [h10] at h
                      injection h with h'
                      subst h'
                      exact ⟨rfl, h1⟩

theorem storeMax_append : ∀ (a b : Store),
    storeMax (a ++ b) = max (storeMax a) (storeMax b)
  | [], b => by simp [storeMax]
  | (x, o) :: rest, b => by
    show max x (storeMax (rest ++ b)) = max (max x (storeMax rest)) (storeMax b)
    rw [storeMax_append rest b]
    omega

theorem lookup_le_storeMax : ∀ (s : Store) (a : Nat) (o : HObj),
    List.lookup a s = some o → a ≤ storeMax s
  | [], a, o, h => by simp [List.lookup] at h
  | (a', o') :: rest, a, o, h => by
    rw [List.lookup] at h
    split at h
    · next heq =>
      have : a = a' := by simpa using heq
      simp only [storeMax]
      omega
    · have := lookup_le_storeMax rest a o h
      simp only [storeMax]
      omega

theorem lookup_append_fresh : ∀ (pre s : Store) (a : Nat),
    (∀ p ∈ pre, storeMax s < p.1) → a ≤ storeMax s →
    List.lookup a (pre ++ s) = List.lookup a s
  | [], s, a, _, _ => by simp
  | p :: rest, s, a, hgt, hle => by
    have hp := hgt p (by simp)
    rw [List.cons_append, List.lookup]
    split
    · next heq =>
      have : a = p.1 := by
        obtain ⟨p1, p2⟩ := p
        simpa using heq
      omega
    · exact lookup_append_fresh rest s a (fun q hq => hgt q (by simp [hq])) hle

theorem consObj_ok (k : String) (v : HVal) (o : Option (Store × HObj))
    (s1 : Store) (obj : HObj) (h : consObj k v o = some (s1, obj)) :
    ∃ tail, o = some (s1, tail) ∧ obj = (k, v) :: tail := by
  cases o with
  | none => simp [consObj] at h
  | some pr =>
    obtain ⟨s2, tail⟩ := pr
    simp only [consObj, Option.some.injEq, Prod.mk.injEq] at h
    exact ⟨tail, by rw [h.1], h.2.symm⟩

mutual
theorem mergeHeap_frame : ∀ (fuel : Nat) (s : Store) (d u : Nat)
    (s' : Store) (r : Nat), mergeHeap fuel s d u = some (s', r) →
    ∃ pre, s' = pre ++ s ∧ (∀ p ∈ pre, storeMax s < p.1) ∧ storeMax s < r
  | 0, s, d, u, s', r, h => by simp [mergeHeap] at h
  | fuel + 1, s, d, u, s', r, h => by
    simp only [mergeHeap] at h
    cases hd : List.lookup d s with
    | none =>
      simp only [hd] at h
      exact Option.noConfusion h
    | some dObj =>
      cases hu : List.lookup u s with
      | none =>
        simp only [hd, hu] at h
        exact Option.noConfusion h
      | some uObj =>
        simp only [hd, hu] at h
        cases hm : mergeOver fuel s dObj uObj with
        | none =>
          simp only [hm] at h
          exact Option.noConfusion h
        | some pr =>
          obtain ⟨s1, merged⟩ := pr
          simp only [hm, Option.some.injEq, Prod.mk.injEq] at h
          obtain ⟨pre1, hpre1, hgt1⟩ := mergeOver_frame fuel s dObj uObj s1 merged hm
          have hsm : storeMax s ≤ storeMax s1 := by
            rw [hpre1, storeMax_append]
            omega
          refine ⟨(freshAddr s1,
              merged ++ uObj.filter fun kv => (List.lookup kv.1 dObj).isNone) :: pre1,
            ?_, ?_, ?_⟩
          · rw [← h.1, hpre1, List.cons_append]
          · intro p hp
            rcases List.mem_cons.mp hp with h2 | h2
            · rw [h2]
              simp only [freshAddr]
              omega
            · exact hgt1 p h2
          · rw [← h.2]
            simp only [freshAddr]
            omega

theorem mergeOver_frame : ∀ (fuel : Nat) (s : Store) (dObj uObj : HObj)
    (s1 : Store) (obj : HObj), mergeOver fuel s dObj uObj = some (s1, obj) →
    ∃ pre, s1 = pre ++ s ∧ ∀ p ∈ pre, storeMax s < p.1
  | 0, s, dObj, uObj, s1, obj, h => by simp [mergeOver] at h
  | fuel + 1, s, [], uObj, s1, obj, h => by
    simp only [mergeOver, Option.some.injEq, Prod.mk.injEq] at h
    exact ⟨[], by rw [← h.1]; rfl, by simp⟩
  | fuel + 1, s, (k, dv) :: rest, uObj, s1, obj, h => by
    simp only [mergeOver] at h
    have generic : ∀ x : HVal,
        consObj k x (mergeOver fuel s rest uObj) = some (s1, obj) →
        ∃ pre, s1 = pre ++ s ∧ ∀ p ∈ pre, storeMax s < p.1 := by
      intro x hg
      obtain ⟨tail, hr, _⟩ := consObj_ok k x (mergeOver fuel s rest uObj) s1 obj hg
      exact mergeOver_frame fuel s rest uObj s1 tail hr
    cases hu : List.lookup k uObj with
    | none =>
      simp only [hu] at h
      exact generic dv h
    | some uv =>
      simp only [hu] at h
      cases dv with
      | hint z => exact generic uv h
      | hfloat z => exact generic uv h
      | hstr z => exact generic uv h
      | hbool z => exact generic uv h
      | href da =>
        cases uv with
        | hint z => exact generic (HVal.hint z) h
        | hfloat z => exact generic (HVal.hfloat z) h
        | hstr z => exact generic (HVal.hstr z) h
        | hbool z => exact generic (HVal.hbool z) h
        | href ua =>
          cases hh : mergeHeap fuel s da ua with
          | none =>
            simp only [hh] at h
            exact Option.noConfusion h
          | some pr =>
            obtain ⟨s2, a1⟩ := pr
            simp only [hh] at h
            obtain ⟨tail, hr, _⟩ :=
              consObj_ok k (HVal.href a1) (mergeOver fuel s2 rest uObj) s1 obj h
            obtain ⟨pre1, hpre1, hgt1, _⟩ := mergeHeap_frame fuel s da ua s2 a1 hh
            obtain ⟨pre2, hpre2, hgt2⟩ := mergeOver_frame fuel s2 rest uObj s1 tail hr
            have hsm : storeMax s ≤ storeMax s2 := by
              rw [hpre1, storeMax_append]
              omega
            refine ⟨pre2 ++ pre1, ?_, ?_⟩
            · rw [hpre2, hpre1, List.append_assoc]
            · intro p hp
              rcases List.mem_append.mp hp with h2 | h2
              · have := hgt2 p h2
                omega
              · exact hgt1 p h2
end

theorem validate_field : ∀ (s : SchemaEntries) (cfg : Entries) (k : String)
    (c : Constraint), SchemaHas s k c → validateEntries s cfg = Except.ok () →
    ∃ v, Entries.lookup k cfg = some v ∧ evalC c v = true := by
  intro s cfg k c hs
  induction hs with
  | head k c rest =>
    intro h
    obtain ⟨v, hl, hv, _⟩ := validateEntries_cons_ok _ _ _ _ h
    exact ⟨v, hl, validateVal_leaf_ok _ _ _ hv⟩
  | tail k' sv rest k c _ ih =>
    intro h
    obtain ⟨_, _, _, hrest⟩ := validateEntries_cons_ok _ _ _ _ h
    exact ih hrest

/-- Claim C1: for every user configuration carrying its two mandatory
sections as mappings, `check_conf` terminates the run with the exclusivity
error — before any pipeline or input validation, the outcome being the
same for every environment — exactly when the exclusive-or between "an
estimation step is present in the pipeline" and "all four disparity-bound
keys are present in the input" fails; when the exclusive-or holds the run
is never stopped by the exclusivity error. -/
theorem claim1 (u p inp : Entries)
    (hp : Entries.lookup "pipeline" u = some (Value.vdict p))
    (hi : Entries.lookup "input" u = some (Value.vdict inp)) :
    ∀ env : Env,
      check_conf env u = RunOutcome.exited 1 exclusivity_msg ↔
        Bool.xor (has_estim p) (all_disparities inp) = false := by
  intro env
  rw [check_conf_unfold env u p inp hp hi]
  cases hx : Bool.xor (has_estim p) (all_disparities inp) with
  | false => simp
  | true =>
    rw [if_neg (by simp)]
    refine iff_of_false ?_ (by simp)
    cases hcp : check_pipeline_section env (get_config_pipeline u) with
    | error e => simp [hcp]
    | ok cfgp =>
      simp only [hcp]
      cases hci : check_input_section env (get_config_input u) (has_estim p) with
      | error e => simp [hci]
      | ok cfgi =>
        simp only [hci]
        cases hnd : getPath cfgi ["input", "nodata_right"] with
        | error e => simp [hnd]
        | ok ndr =>
          simp only [hnd]
          cases hf : isFloat ndr with
          | false => simp [hf]
          | true =>
            simp only [hf]
            rw [if_pos trivial]
            cases hm : getPath cfgp
                ["pipeline", "matching_cost", "matching_cost_method"] with
            | error e => simp [hm]
            | ok m =>
              simp only [hm]
              cases hs : (m == Value.vstr "sad" || m == Value.vstr "ssd") with
              | false => simp [hs]
              | true => simp [hs, nodata_msg, exclusivity_msg]

theorem claim1_witness :
    check_conf envW cfgBoth = RunOutcome.exited 1 exclusivity_msg :=
  (claim1 cfgBoth pE inpBoth rfl rfl envW).mpr rfl

/-- Claim C3 counterexample: a configuration with no estimation step and
only two of the four disparity-bound keys is stopped by the exclusivity
gate with the logged exit, not by a schema violation for missing keys. -/
theorem claim3_counterexample :
    has_estim pA = false ∧
    Entries.hasKey inpC "disp_min_col" = true ∧
    Entries.hasKey inpC "disp_min_row" = false ∧
    check_conf envW cfgC = RunOutcome.exited 1 exclusivity_msg :=
  ⟨rfl, rfl, rfl, rfl⟩

/-- Claim C3 (amended): with no estimation step and not all four
disparity-bound keys set (in particular with only a proper non-empty
subset of them), the gate counts the disparity branch of the XOR as
unsatisfied — `issubset` requires all four keys — so the exclusive-or
fails and `check_conf` exits at the gate with the exclusivity error,
never reaching schema validation (the outcome is the same for every
environment). -/
theorem claim3_amended (u p inp : Entries)
    (hp : Entries.lookup "pipeline" u = some (Value.vdict p))
    (hi : Entries.lookup "input" u = some (Value.vdict inp))
    (hne : has_estim p = false)
    (hnall : all_disparities inp = false) :
    ∀ env : Env, check_conf env u = RunOutcome.exited 1 exclusivity_msg := by
  intro env
  rw [check_conf_unfold env u p inp hp hi, hne, hnall]
  simp

theorem claim3_amended_witness :
    check_conf env9 cfgC = RunOutcome.exited 1 exclusivity_msg :=
  claim3_amended cfgC pA inpC rfl rfl rfl rfl env9

/-- Claim C5 counterexample: a user key whose value is a mapping, merged
over a default mapping for the same key, does not appear in the result
with the user's value — it holds the recursive merge of the two
mappings. -/
theorem claim5_counterexample :
    Entries.lookup "k" (update_conf
        (Entries.cons "k" (Value.vdict (Entries.cons "a" (Value.vint 0) Entries.nil))
          Entries.nil)
        (Entries.cons "k" (Value.vdict (Entries.cons "b" (Value.vint 1) Entries.nil))
          Entries.nil)) ≠
      Entries.lookup "k"
        (Entries.cons "k" (Value.vdict (Entries.cons "b" (Value.vint 1) Entries.nil))
          Entries.nil) := by
  decide

/-- Claim C5 (amended): the merge never drops a user key — a key present
in the user configuration appears in the result, with the user's value
itself whenever the default value and the user value are not both
mappings, and with the recursive merge of the two mappings otherwise —
and every key present in the defaults but absent from the user
configuration keeps its default value unchanged. -/
theorem claim5_amended (d u : Entries) (k : String) :
    (∀ uv, Entries.lookup k u = some uv →
      Entries.lookup k (update_conf d u) =
        some (match Entries.lookup k d with
              | some dv => update_value dv uv
              | none => uv)) ∧
    (∀ uv dv, Entries.lookup k u = some uv → Entries.lookup k d = some dv →
      (isDict dv && isDict uv) = false →
      Entries.lookup k (update_conf d u) = some uv) ∧
    (Entries.lookup k u = none →
      Entries.lookup k (update_conf d u) = Entries.lookup k d) := by
  refine ⟨?_, ?_, ?_⟩
  · intro uv huv
    rw [lookup_update_conf]
    cases hd : Entries.lookup k d <;> simp [huv]
  · intro uv dv huv hdv hnd
    rw [lookup_update_conf, huv, hdv]
    cases hdd : isDict dv with
    | false => simp [update_value_nondict_left dv uv hdd]
    | true =>
      rw [hdd] at hnd
      simp only [Bool.true_and] at hnd
      simp [update_value_nondict dv uv hnd]
  · intro hnone
    rw [lookup_update_conf, hnone]
    cases Entries.lookup k d <;> simp

theorem claim5_amended_witness :
    Entries.lookup "k" (update_conf
        (Entries.cons "k" (Value.vint 0) Entries.nil)
        (Entries.cons "k" (Value.vint 7) Entries.nil)) = some (Value.vint 7) :=
  (claim5_amended (Entries.cons "k" (Value.vint 0) Entries.nil)
    (Entries.cons "k" (Value.vint 7) Entries.nil) "k").2.1
    (Value.vint 7) (Value.vint 0) rfl rfl rfl

/-- Claim C6: for a well-formed user configuration (unique keys in every
mapping, as the data model requires), the merge is idempotent with
respect to re-applying the same user configuration. -/
theorem claim6 (d u : Entries) (hu : wfEntries u = true) :
    update_conf (update_conf d u) u = update_conf d u :=
  update_conf_idem d u hu

theorem claim6_witness :
    update_conf (update_conf default_short_configuration_input cfgA) cfgA
      = update_conf default_short_configuration_input cfgA :=
  claim6 default_short_configuration_input cfgA (by decide)

/-- Claim C7 (spec-modelled): the merge mutates neither of its arguments:
a successful heap-level merge leaves every previously allocated object —
in particular the two argument structures and everything they reference —
with exactly its prior content, and returns a freshly allocated address,
so the result is a new structure. -/
theorem claim7 (fuel : Nat) (s : Store) (d u : Nat) (s' : Store) (r : Nat)
    (h : mergeHeap fuel s d u = some (s', r)) :
    (∀ a o, List.lookup a s = some o → List.lookup a s' = some o) ∧
      List.lookup r s = none := by
  obtain ⟨pre, hpre, hgt, hr⟩ := mergeHeap_frame fuel s d u s' r h
  constructor
  · intro a o ha
    have hle : a ≤ storeMax s := lookup_le_storeMax s a o ha
    rw [hpre, lookup_append_fresh pre s a hgt hle]
    exact ha
  · cases hl : List.lookup r s with
    | none => rfl
    | some o =>
      have := lookup_le_storeMax s r o hl
      omega

theorem claim7_witness :
    (∀ a o,
      List.lookup a [(0, [("x", HVal.hint 1)]), (1, [("y", HVal.hint 2)])] = some o →
      List.lookup a
        ((2, [("x", HVal.hint 1), ("y", HVal.hint 2)]) ::
          [(0, [("x", HVal.hint 1)]), (1, [("y", HVal.hint 2)])]) = some o) ∧
    List.lookup 2 [(0, [("x", HVal.hint 1)]), (1, [("y", HVal.hint 2)])] = none :=
  claim7 3 [(0, [("x", HVal.hint 1)]), (1, [("y", HVal.hint 2)])] 0 1
    ((2, [("x", HVal.hint 1), ("y", HVal.hint 2)]) ::
      [(0, [("x", HVal.hint 1)]), (1, [("y", HVal.hint 2)])]) 2 (by decide)

/-- Claim C4: a successful `check_input_section` run used the schema
variant selected by `flag_estim`: when an estimation step is present every
one of the four disparity-bound fields of the returned configuration is
the NaN sentinel, and when none is present every one of them is an exact
integer. -/
theorem claim4 (env : Env) (u : Entries) (flag : Bool) (cfg : Entries)
    (h : check_input_section env u flag = Except.ok cfg) :
    ∀ k, k ∈ disparity_keys →
      ∃ v, getPath cfg ["input", k] = Except.ok v ∧
        (flag = true → v = Value.vfloat FloatKind.fnan) ∧
        (flag = false → ∃ z, v = Value.vint z) := by
  obtain ⟨hcfg, hval⟩ := check_input_section_ok_inv env u flag cfg h
  obtain ⟨v0, hl0, hv0, _⟩ := validateEntries_cons_ok _ _ _ _ hval
  obtain ⟨sub, hsub, hvsub⟩ := validateVal_nested_ok _ _ _ hv0
  subst hsub
  intro k hk
  simp only [disparity_keys, List.mem_cons, List.not_mem_nil, or_false] at hk
  cases flag with
  | true =>
    rw [if_pos rfl] at hvsub
    have ext : ∀ kk : String,
        SchemaHas (estim_input_configuration_schema env.canOpen) kk
          (Constraint.cpred isnanB) →
        ∃ v, getPath cfg ["input", kk] = Except.ok v ∧
          (true = true → v = Value.vfloat FloatKind.fnan) ∧
          (true = false → ∃ z, v = Value.vint z) := by
      intro kk hs
      obtain ⟨v, hlv, hev⟩ := validate_field _ sub kk _ hs hvsub
      refine ⟨v, ?_, fun _ => isnanB_eq v hev, fun hff => absurd hff (by simp)⟩
      simp [getPath, getPathV, getItem, hl0, hlv]
    rcases hk with rfl | rfl | rfl | rfl <;>
      exact ext _ (by repeat first | exact SchemaHas.head _ _ _ | apply SchemaHas.tail)
  | false =>
    rw [if_neg (by simp)] at hvsub
    have ext : ∀ kk : String,
        SchemaHas (input_configuration_schema env.canOpen) kk
          (Constraint.ctype PyType.tInt) →
        ∃ v, getPath cfg ["input", kk] = Except.ok v ∧
          (false = true → v = Value.vfloat FloatKind.fnan) ∧
          (false = false → ∃ z, v = Value.vint z) := by
      intro kk hs
      obtain ⟨v, hlv, hev⟩ := validate_field _ sub kk _ hs hvsub
      refine ⟨v, ?_, fun htt => absurd htt (by simp),
        fun _ => typeOf_tInt v (by simpa [evalC] using hev)⟩
      simp [getPath, getPathV, getItem, hl0, hlv]
    rcases hk with rfl | rfl | rfl | rfl <;>
      exact ext _ (by repeat first | exact SchemaHas.head _ _ _ | apply SchemaHas.tail)

theorem claim4_witness :
    ∃ v, getPath cfgE_input ["input", "disp_min_col"] = Except.ok v ∧
      (true = true → v = Value.vfloat FloatKind.fnan) ∧
      (true = false → ∃ z, v = Value.vint z) :=
  claim4 envW (get_config_input cfgE) true cfgE_input rfl "disp_min_col"
    (by decide)

/-- Claim C8: the two cross-section business-rule violations terminate the
invocation with the nonzero status 1 after emitting their descriptive
message, whereas a failure of the pipeline check (state-machine violation)
or of the input check (schema violation, unopenable raster path) is a
raised error propagating unchanged to the immediate caller. -/
theorem claim8 (env : Env) (u p inp : Entries)
    (hp : Entries.lookup "pipeline" u = some (Value.vdict p))
    (hi : Entries.lookup "input" u = some (Value.vdict inp)) :
    (Bool.xor (has_estim p) (all_disparities inp) = false →
      check_conf env u = RunOutcome.exited 1 exclusivity_msg) ∧
    (∀ cfgp cfgi ndr m,
      Bool.xor (has_estim p) (all_disparities inp) = true →
      check_pipeline_section env (get_config_pipeline u) = Except.ok cfgp →
      check_input_section env (get_config_input u) (has_estim p) = Except.ok cfgi →
      getPath cfgi ["input", "nodata_right"] = Except.ok ndr →
      isFloat ndr = true →
      getPath cfgp ["pipeline", "matching_cost", "matching_cost_method"] = Except.ok m →
      (m == Value.vstr "sad" || m == Value.vstr "ssd") = true →
      check_conf env u = RunOutcome.exited 1 nodata_msg) ∧
    (∀ e, Bool.xor (has_estim p) (all_disparities inp) = true →
      check_pipeline_section env (get_config_pipeline u) = Except.error e →
      check_conf env u = RunOutcome.raised e) ∧
    (∀ cfgp e, Bool.xor (has_estim p) (all_disparities inp) = true →
      check_pipeline_section env (get_config_pipeline u) = Except.ok cfgp →
      check_input_section env (get_config_input u) (has_estim p) = Except.error e →
      check_conf env u = RunOutcome.raised e) := by
  refine ⟨?_, ?_, ?_, ?_⟩
  · intro hx
    rw [check_conf_unfold env u p inp hp hi, hx]
    simp
  · intro cfgp cfgi ndr m hx hcp hci hnd hf hm hs
    rw [check_conf_unfold env u p inp hp hi, hx, if_neg (by simp)]
    simp [hcp, hci, hnd, hf, hm, hs]
  · intro e hx hcp
    rw [check_conf_unfold env u p inp hp hi, hx, if_neg (by simp)]
    simp [hcp]
  · intro cfgp e hx hcp hci
    rw [check_conf_unfold env u p inp hp hi, hx, if_neg (by simp)]
    simp [hcp, hci]

theorem claim8_witness :
    check_conf env9 cfgA
      = RunOutcome.raised (Err.stateMachineViolation "illegal transition") :=
  (claim8 env9 cfgA pA inpA rfl rfl).2.2.1
    (Err.stateMachineViolation "illegal transition") rfl rfl

/-- Claim C9 counterexample: with a state machine that rejects every
pipeline, a configuration violating the exclusivity rule still exits with
the exclusivity error: the cross-section consistency check runs before
the state-machine gate, not after the section validations. -/
theorem claim9_counterexample :
    env9.machineCheck (Value.vdict pE)
        = Except.error (Err.stateMachineViolation "illegal transition") ∧
      check_conf env9 cfgBoth = RunOutcome.exited 1 exclusivity_msg :=
  ⟨rfl, rfl⟩

/-- Claim C9 (amended): `check_conf` performs its steps in the order
(1) exclusivity consistency check — whose failure exits with status 1
identically for every environment, before any other step — then
(2) state-machine validation of the pipeline section, (3) merge and
schema validation of the input section, (4) the nodata/matching-cost
consistency check, and (5) concatenation of the two validated sections;
any failing step aborts all remaining steps, with no alternate-schema
retry. -/
theorem claim9_amended (u p inp : Entries)
    (hp : Entries.lookup "pipeline" u = some (Value.vdict p))
    (hi : Entries.lookup "input" u = some (Value.vdict inp)) :
    (Bool.xor (has_estim p) (all_disparities inp) = false →
      ∀ env : Env, check_conf env u = RunOutcome.exited 1 exclusivity_msg) ∧
    (∀ env : Env, Bool.xor (has_estim p) (all_disparities inp) = true →
      (∀ e, check_pipeline_section env (get_config_pipeline u) = Except.error e →
        check_conf env u = RunOutcome.raised e) ∧
      (∀ cfgp, check_pipeline_section env (get_config_pipeline u) = Except.ok cfgp →
        (∀ e, check_input_section env (get_config_input u) (has_estim p)
            = Except.error e →
          check_conf env u = RunOutcome.raised e) ∧
        (∀ cfgi, check_input_section env (get_config_input u) (has_estim p)
            = Except.ok cfgi →
          ∀ ndr, getPath cfgi ["input", "nodata_right"] = Except.ok ndr →
            (isFloat ndr = false →
              check_conf env u = RunOutcome.ok (concat_conf [cfgi, cfgp])) ∧
            (isFloat ndr = true →
              ∀ m, getPath cfgp ["pipeline", "matching_cost", "matching_cost_method"]
                  = Except.ok m →
                ((m == Value.vstr "sad" || m == Value.vstr "ssd") = true →
                  check_conf env u = RunOutcome.exited 1 nodata_msg) ∧
                ((m == Value.vstr "sad" || m == Value.vstr "ssd") = false →
                  check_conf env u
                    = RunOutcome.ok (concat_conf [cfgi, cfgp])))))) := by
  refine ⟨?_, ?_⟩
  · intro hx env
    rw [check_conf_unfold env u p inp hp hi, hx]
    simp
  · intro env hx
    refine ⟨?_, ?_⟩
    · intro e hcp
      rw [check_conf_unfold env u p inp hp hi, hx, if_neg (by simp)]
      simp [hcp]
    · intro cfgp hcp
      refine ⟨?_, ?_⟩
      · intro e hci
        rw [check_conf_unfold env u p inp hp hi, hx, if_neg (by simp)]
        simp [hcp, hci]
      · intro cfgi hci ndr hnd
        refine ⟨?_, ?_⟩
        · intro hff
          rw [check_conf_unfold env u p inp hp hi, hx, if_neg (by simp)]
          simp [hcp, hci, hnd, hff]
        · intro hft m hm
          refine ⟨?_, ?_⟩
          · intro hst
            rw [check_conf_unfold env u p inp hp hi, hx, if_neg (by simp)]
            simp [hcp, hci, hnd, hft, hm, hst]
          · intro hsf
            rw [check_conf_unfold env u p inp hp hi, hx, if_neg (by simp)]
            simp [hcp, hci, hnd, hft, hm, hsf]

theorem claim9_amended_witness :
    check_conf envW cfgA = RunOutcome.ok (concat_conf [cfgA_input, cfgA_pipeline]) :=
  ((((claim9_amended cfgA pA inpA rfl rfl).2 envW rfl).2 cfgA_pipeline rfl).2
    cfgA_input rfl (Value.vint 9999) rfl).1 rfl

/-- Claim C10: the matching-cost entry of the validated pipeline is looked
up only when `nodata_right` is a float — the conjunction short-circuits —
so an integer `nodata_right` is accepted even when the validated pipeline
has no `matching_cost` step; conversely a float `nodata_right` (the
NaN/Infinity sentinels included) with no `matching_cost` step makes
`check_conf` raise an uncaught key-lookup error instead of returning or
reporting a consistency violation. -/
theorem claim10 (env : Env) (u p inp cfgp cfgi pl : Entries) (ndr : Value)
    (hp : Entries.lookup "pipeline" u = some (Value.vdict p))
    (hi : Entries.lookup "input" u = some (Value.vdict inp))
    (hx : Bool.xor (has_estim p) (all_disparities inp) = true)
    (hcp : check_pipeline_section env (get_config_pipeline u) = Except.ok cfgp)
    (hci : check_input_section env (get_config_input u) (has_estim p)
      = Except.ok cfgi)
    (hpl : Entries.lookup "pipeline" cfgp = some (Value.vdict pl))
    (hnomc : Entries.lookup "matching_cost" pl = none)
    (hnd : getPath cfgi ["input", "nodata_right"] = Except.ok ndr) :
    (∀ z, ndr = Value.vint z →
      check_conf env u = RunOutcome.ok (concat_conf [cfgi, cfgp])) ∧
    (∀ fk, ndr = Value.vfloat fk →
      check_conf env u = RunOutcome.raised (Err.keyError "matching_cost")) := by
  have hmc : getPath cfgp ["pipeline", "matching_cost", "matching_cost_method"]
      = Except.error (Err.keyError "matching_cost") := by
    simp [getPath, getPathV, getItem, hpl, hnomc]
  constructor
  · rintro z rfl
    rw [check_conf_unfold env u p inp hp hi, hx, if_neg (by simp)]
    simp [hcp, hci, hnd, isFloat]
  · rintro fk rfl
    rw [check_conf_unfold env u p inp hp hi, hx, if_neg (by simp)]
    simp [hcp, hci, hnd, isFloat, hmc]

theorem claim10_witness :
    check_conf envW cfgE = RunOutcome.ok (concat_conf [cfgE_input, cfgE_pipeline]) :=
  (claim10 envW cfgE pE inpE cfgE_pipeline cfgE_input pE (Value.vint (-9999))
    rfl rfl rfl rfl rfl rfl rfl rfl).1 (-9999) rfl

/-- Claim C2 counterexample: with `matching_cost_method = "sad"`, a
configuration whose `nodata_right` is the finite float 9999.0 never
reaches the nodata consistency gate: it is rejected inside
`check_input_section` by the input schema, so `check_conf` raises a
schema violation to its caller instead of logging the nodata message and
exiting. -/
theorem claim2_counterexample :
    check_conf envW cfgD = RunOutcome.raised (Err.schemaViolation "nodata_right") :=
  rfl

/-- Claim C2 (amended): for any pipeline, a `nodata_right` that is a
finite float (as opposed to an integer or a NaN/Infinity sentinel) is
rejected already by the input schema — `check_input_section` never
succeeds on it, whatever the matching-cost method; when the pipeline
declares `matching_cost_method` in {"sad", "ssd"} and `nodata_right`
passes the input schema, a float value (then necessarily a NaN/Infinity
sentinel) makes `check_conf` log the nodata message and exit with status
1, while an integer value is accepted. -/
theorem claim2_amended :
    (∀ (env : Env) (u : Entries) (flag : Bool) (q : Int),
      getPath (update_conf default_short_configuration_input u)
          ["input", "nodata_right"] = Except.ok (Value.vfloat (FloatKind.ffin q)) →
      ∀ cfg, check_input_section env u flag ≠ Except.ok cfg) ∧
    (∀ (env : Env) (u p inp cfgp cfgi : Entries) (m ndr : Value),
      Entries.lookup "pipeline" u = some (Value.vdict p) →
      Entries.lookup "input" u = some (Value.vdict inp) →
      Bool.xor (has_estim p) (all_disparities inp) = true →
      check_pipeline_section env (get_config_pipeline u) = Except.ok cfgp →
      check_input_section env (get_config_input u) (has_estim p) = Except.ok cfgi →
      getPath cfgp ["pipeline", "matching_cost", "matching_cost_method"]
        = Except.ok m →
      (m = Value.vstr "sad" ∨ m = Value.vstr "ssd") →
      getPath cfgi ["input", "nodata_right"] = Except.ok ndr →
      (∀ fk, ndr = Value.vfloat fk →
        check_conf env u = RunOutcome.exited 1 nodata_msg) ∧
      (∀ z, ndr = Value.vint z →
        check_conf env u = RunOutcome.ok (concat_conf [cfgi, cfgp]))) := by
  constructor
  · intro env u flag q hq cfg hok
    obtain ⟨hcfg, hval⟩ := check_input_section_ok_inv env u flag cfg hok
    obtain ⟨v0, hl0, hv0, _⟩ := validateEntries_cons_ok _ _ _ _ hval
    obtain ⟨sub, hsub, hvsub⟩ := validateVal_nested_ok _ _ _ hv0
    subst hsub
    have hnod : ∃ v, Entries.lookup "nodata_right" sub = some v ∧
        evalC nodata_constraint v = true := by
      cases flag with
      | true =>
        rw [if_pos rfl] at hvsub
        exact validate_field _ sub "nodata_right" _
          (by repeat first | exact SchemaHas.head _ _ _ | apply SchemaHas.tail) hvsub
      | false =>
        rw [if_neg (by simp)] at hvsub
        exact validate_field _ sub "nodata_right" _
          (by repeat first | exact SchemaHas.head _ _ _ | apply SchemaHas.tail) hvsub
    obtain ⟨v, hlv, hev⟩ := hnod
    rw [← hcfg] at hq
    simp only [getPath, getPathV, getItem, hl0, hlv] at hq
    injection hq with hq2
    rw [hq2] at hev
    simp [evalC, nodata_constraint, typeOf, isnanB, isinfB] at hev
  · intro env u p inp cfgp cfgi m ndr hp hi hx hcp hci hm hsad hnd
    constructor
    · rintro fk rfl
      rw [check_conf_unfold env u p inp hp hi, hx, if_neg (by simp)]
      rcases hsad with rfl | rfl <;>
        simp [hcp, hci, hnd, hm, isFloat]
    · rintro z rfl
      rw [check_conf_unfold env u p inp hp hi, hx, if_neg (by simp)]
      simp [hcp, hci, hnd, isFloat]

theorem claim2_amended_witness :
    check_conf envW cfgS = RunOutcome.exited 1 nodata_msg :=
  (claim2_amended.2 envW cfgS pA inpS cfgA_pipeline cfgS_input
    (Value.vstr "sad") (Value.vfloat FloatKind.fnan)
    rfl rfl rfl rfl rfl rfl (Or.inl rfl) rfl).1 FloatKind.fnan rfl
